import Mathlib

/-!
Verification of the Homewerks Smart Fan integration core
(`custom_components/homewerks_smart_fan`), shallowly embedded in Lean.

Conventions of the embedding:
* Python byte strings are `List Nat` (each element a byte value).
* Python `str` is `List Char` (`Str` below); the payload dictionaries that
  travel over the wire are association lists `List (Str × JVal)` in key
  order, with JSON values restricted to the flat shapes this protocol
  actually uses (strings and integers).
* Network and asyncio effects are abstracted into explicit boolean/optional
  oracles (`tcpOk`, `writeOk`, an HTTP response description, ...); the pure
  state transitions are translated from the source line by line.
* A Python statement that can raise (`TypeError` from `int + str` in the
  colour-temperature branch) is modelled with an explicit `errored` flag so
  that the enclosing `try/except` translation stays faithful.
-/

namespace Homewerks

/-- Python strings, as lists of characters. -/
abbrev Str := List Char

/-! ### Constants (`const.py`) -/

def FRAME_HEADER : List Nat := [0x18, 0x96, 0x18, 0x20]

def FRAME_PADDING : List Nat := List.replicate 12 0

def PAYLOAD_PREFIX : Str := "MCU+PAS+".toList

def PAYLOAD_SUFFIX : Str := "&".toList

def KEY_FAN_POWER : Str := "fan_power".toList

def KEY_LIGHT_POWER : Str := "light_power".toList

def KEY_PERCENTAGE : Str := "percentage".toList

def KEY_COLOR_TEMPERATURE : Str := "colorTemperature".toList

def VALUE_ON : Str := "ON".toList

def VALUE_OFF : Str := "OFF".toList

def MIN_COLOR_TEMP_KELVIN : Int := 2200

def MAX_COLOR_TEMP_KELVIN : Int := 7000

def LINKPLAY_MANUFACTURER : Str := "Linkplay Technology Inc.".toList

/-- Modelled from the spec: `SUPPORTED_DEVICE_COLOR_TEMPS` is imported by
`api.py` and `light.py` from `const.py`, but the definition is absent from
`const.py` in the source tree.  Spec §4.1: "Device firmware additionally only
accepts four discrete device-scale values {7000, 5500, 2700, 2200}", ties
"resolved to the first minimum encountered in listed order"; the docstring of
`_snap_device_color_temp` lists the same four values in the same order. -/
def SUPPORTED_DEVICE_COLOR_TEMPS : List Int := [7000, 5500, 2700, 2200]

/-! ### JSON values and payload dictionaries -/

/-- A JSON value as used by this protocol: every payload is a flat object
whose values are strings (`"ON"`, `"OFF"`, `""`) or integers. -/
inductive JVal where
  | str (s : Str)
  | int (n : Int)
deriving DecidableEq, Repr

/-- A command/update payload: a Python dict, as an association list in key
order (Python dicts preserve insertion order). -/
abbrev Payload := List (Str × JVal)

/-- Python `parsed[key]` / `key in parsed`: dictionary lookup. -/
def lookupKey (p : Payload) (k : Str) : Option JVal :=
  match p.find? (fun kv => kv.1 == k) with
  | some kv => some kv.2
  | none => none

/-! ### Device state (`HomewerksSmartFanApi.__init__`) -/

/-- The mutable state dictionary held by the API client. -/
structure DeviceState where
  fan_power : Bool
  light_power : Bool
  brightness : Int
  color_temp : Int
  volume : Int
deriving DecidableEq, Repr

/-- Initial state from `HomewerksSmartFanApi.__init__`. -/
def initialState : DeviceState :=
  { fan_power := false, light_power := false, brightness := 100,
    color_temp := 4000, volume := 50 }

/-! ### Colour temperature helpers (`api.py` lines 130-143) -/

/-- Embedding of `_invert_color_temp`: the device scale is inverted relative to standard
Kelvin. -/
def invert_color_temp (temp : Int) : Int :=
  MIN_COLOR_TEMP_KELVIN + MAX_COLOR_TEMP_KELVIN - temp

/-- Python `min(acc :: l, key := key)` as the left fold the CPython builtin
performs: the accumulator is replaced only when a strictly smaller key is
found, so the first minimum in iteration order wins. -/
def pyMinBy (key : Int → Nat) : Int → List Int → Int
  | acc, [] => acc
  | acc, t :: ts => pyMinBy key (if key t < key acc then t else acc) ts

/-- Embedding of `_snap_device_color_temp`:
`min(SUPPORTED_DEVICE_COLOR_TEMPS, key=lambda t: abs(t - device_temp))`. -/
def snap_device_color_temp (device_temp : Int) : Int :=
  match SUPPORTED_DEVICE_COLOR_TEMPS with
  | [] => 0
  | t :: ts => pyMinBy (fun t => (t - device_temp).natAbs) t ts

/-- The `colorTemperature` value computed and sent by
`set_color_temperature` (`api.py` lines 381-387): clamp to
[`MIN_COLOR_TEMP_KELVIN`, `MAX_COLOR_TEMP_KELVIN`], invert to device scale,
snap to the nearest supported value. -/
def set_color_temperature_sent (temp_kelvin : Int) : Int :=
  let t := max MIN_COLOR_TEMP_KELVIN (min MAX_COLOR_TEMP_KELVIN temp_kelvin)
  snap_device_color_temp (invert_color_temp t)

/-! ### State update from a parsed payload (`_update_state_from_response`) -/

/-- Result of running `_update_state_from_response`: the state after all
executed assignments, the `changed` flag, and whether the Python code raised
(`TypeError` when `colorTemperature` holds a string, since
`_invert_color_temp` then subtracts a `str` from an `int`).  On a raise the
assignments already made to `self._state` persist. -/
structure UpdResult where
  state : DeviceState
  changed : Bool
  errored : Bool
deriving DecidableEq, Repr

/-- The `KEY_FAN_POWER` block of `_update_state_from_response`. -/
def apply_fan_power (s : DeviceState) (changed : Bool) (parsed : Payload) :
    DeviceState × Bool :=
  match lookupKey parsed KEY_FAN_POWER with
  | none => (s, changed)
  | some v =>
      let new_val := v == JVal.str VALUE_ON
      if s.fan_power ≠ new_val then ({ s with fan_power := new_val }, true)
      else (s, changed)

/-- The `KEY_LIGHT_POWER` block of `_update_state_from_response`. -/
def apply_light_power (s : DeviceState) (changed : Bool) (parsed : Payload) :
    DeviceState × Bool :=
  match lookupKey parsed KEY_LIGHT_POWER with
  | none => (s, changed)
  | some v =>
      let new_val := v == JVal.str VALUE_ON
      if s.light_power ≠ new_val then ({ s with light_power := new_val }, true)
      else (s, changed)

/-- The `KEY_PERCENTAGE` block: the value is applied only when it is numeric
(`isinstance(raw_val, (int, float))`) and at most 100; the 255 "not tracked"
sentinel (and anything else above 100) is ignored, as is a non-numeric value
such as the `""` query echo.  No lower bound is checked. -/
def apply_percentage (s : DeviceState) (changed : Bool) (parsed : Payload) :
    DeviceState × Bool :=
  match lookupKey parsed KEY_PERCENTAGE with
  | none => (s, changed)
  | some (JVal.str _) => (s, changed)
  | some (JVal.int n) =>
      if n ≤ 100 then
        if s.brightness ≠ n then ({ s with brightness := n }, true)
        else (s, changed)
      else (s, changed)

/-- The `KEY_COLOR_TEMPERATURE` block: the raw value is passed to
`_invert_color_temp`; a string value makes that raise `TypeError`. -/
def apply_color_temp (s : DeviceState) (changed : Bool) (parsed : Payload) :
    UpdResult :=
  match lookupKey parsed KEY_COLOR_TEMPERATURE with
  | none => { state := s, changed := changed, errored := false }
  | some (JVal.str _) => { state := s, changed := changed, errored := true }
  | some (JVal.int n) =>
      let new_val := invert_color_temp n
      if s.color_temp ≠ new_val then
        { state := { s with color_temp := new_val }, changed := true,
          errored := false }
      else { state := s, changed := changed, errored := false }

/-- Embedding of `_update_state_from_response` (`api.py` lines 145-176), minus the final
notification call (modelled separately): the four key blocks run in source
order on the shared state. -/
def update_state_from_response (s : DeviceState) (parsed : Payload) :
    UpdResult :=
  let sc := apply_fan_power s false parsed
  let sc := apply_light_power sc.1 sc.2 parsed
  let sc := apply_percentage sc.1 sc.2 parsed
  apply_color_temp sc.1 sc.2 parsed

/-! ### Listener notification (`_notify_state_change`) -/

/-- A registered state callback, identified for tracing; invoking it either
returns normally or raises (an arbitrary exception message). -/
structure Callback where
  id : Nat
  run : Except String Unit

/-- The body of the `for` loop in `_notify_state_change`:
`try: callback() except Exception as err: _LOGGER.debug(...)` — the raised
exception is caught and logged. -/
def guardedCall (c : Callback) : Except String Unit :=
  match c.run with
  | Except.ok u => Except.ok u
  | Except.error _ => Except.ok ()

/-- Embedding of `_notify_state_change`: iterate over the registered callbacks in order.
Returns the trace of callbacks that were invoked to completion of the loop
body; an uncaught exception in a body would abort the iteration and
propagate (`Except.error`). -/
def notify_state_change : List Callback → Except String (List Nat)
  | [] => Except.ok []
  | c :: rest =>
      match guardedCall c with
      | Except.error e => Except.error e
      | Except.ok _ =>
          match notify_state_change rest with
          | Except.ok tr => Except.ok (c.id :: tr)
          | Except.error e => Except.error e

/-! ### Sending a command (`_send_command`) -/

/-- Embedding of `_send_command` (`api.py` lines 313-341), with the I/O abstracted:
`connected` is the current `self._connected`, `connectOk` is what
`self.connect()` would return if invoked, `writeOk` tells whether
`write`/`drain` succeed.  On a successful write the same
`_update_state_from_response` used for received data is applied to the
payload (optimistic update, `notify=True`) before `True` is returned; if
that application raises, the generic `except` returns `False` with the
partial mutations kept. -/
def send_command (connected connectOk writeOk : Bool) (s : DeviceState)
    (data : Payload) : DeviceState × Bool :=
  if ¬connected ∧ ¬connectOk then (s, false)
  else if writeOk then
    let r := update_state_from_response s data
    if r.errored then (r.state, false) else (r.state, true)
  else (s, false)

/-! ### Reconnect backoff (`connect` / `_schedule_reconnect`) -/

/-- The delay update performed after each backoff sleep
(`api.py` lines 215-217): `min(delay * 2, max_reconnect_delay)` with the cap
at 60 seconds. -/
def backoff_next (d : Nat) : Nat := min (d * 2) 60

/-- The waits slept by `n` consecutive `_schedule_reconnect` runs starting
from reconnect delay `d`: each run sleeps the current delay, then doubles it
(capped), then (on connect failure) reschedules itself. -/
def backoff_waits (d : Nat) : Nat → List Nat
  | 0 => []
  | n + 1 => d :: backoff_waits (backoff_next d) n

/-- The connection bookkeeping of `connect` (`api.py` lines 178-200):
already connected is a no-op; a successful open marks connected and resets
the reconnect delay to the 1-second floor; a failure only clears
`connected`. -/
structure LinkState where
  connected : Bool
  reconnect_delay : Nat
deriving DecidableEq, Repr

def connect_update (s : LinkState) (tcpOk : Bool) : LinkState :=
  if s.connected then s
  else if tcpOk then { connected := true, reconnect_delay := 1 }
  else { s with connected := false }

/-! ### Discovery (`discovery.py`) -/

/-- Python's substring test `needle in haystack`: some contiguous slice of
`hay` equals `pat`. -/
def strContains (pat : Str) : Str → Bool
  | [] => pat == []
  | c :: t => pat.isPrefixOf (c :: t) || strContains pat t

/-- The fields of the `<device>` element that `fetch_device_info` reads,
each as `_text` returns it (`none` when the child is missing or empty). -/
structure XmlDevice where
  manufacturer : Option Str
  friendlyName : Option Str
  udn : Option Str
  uuid : Option Str
  modelName : Option Str
  modelDescription : Option Str

/-- Outcome of `ElementTree.fromstring` + `root.find("device")` on the
fetched body. -/
inductive XmlOutcome where
  | parseError
  | noDevice
  | device (d : XmlDevice)

/-- What the network returns to `fetch_device_info` for a given host:
the HTTP fetch of `description.xml` (`none` = client error / timeout,
otherwise status code and parsed body), and whether the TCP control port
8899 accepts a connection (`_check_port`). -/
structure HostEnv where
  httpResponse : Option (Nat × XmlOutcome)
  controlPortOpen : Bool

/-- The `DiscoveredDevice` dataclass of `discovery.py`. -/
structure DiscoveredDevice where
  host : Str
  friendly_name : Str
  udn : Str
  uuid : Str
  manufacturer : Str
  model_name : Str
  model_description : Str
deriving DecidableEq, Repr

/-- Embedding of `fetch_device_info` (`discovery.py` lines 38-85) over the abstracted
network environment: reject on fetch failure or non-200 status, on
malformed XML or a missing `<device>` element, when the manufacturer text
does not contain `LINKPLAY_MANUFACTURER`, and when control port 8899 is not
confirmed reachable; otherwise build the record with the documented
defaults. -/
def fetch_device_info (host : Str) (env : HostEnv) :
    Option DiscoveredDevice :=
  match env.httpResponse with
  | none => none
  | some (status, body) =>
    if status ≠ 200 then none
    else
      match body with
      | XmlOutcome.parseError => none
      | XmlOutcome.noDevice => none
      | XmlOutcome.device dev =>
        let manufacturer := dev.manufacturer
        if ¬ (strContains LINKPLAY_MANUFACTURER (manufacturer.getD [])) then
          none
        else if ¬ env.controlPortOpen then none
        else
          some
            { host := host,
              friendly_name := dev.friendlyName.getD "Unknown".toList,
              udn := dev.udn.getD [],
              uuid := dev.uuid.getD [],
              manufacturer := manufacturer.getD [],
              model_name := dev.modelName.getD [],
              model_description := dev.modelDescription.getD [] }

/-! ### The frame codec (`_build_frame` / `_parse_response`)

Python `bytes` values are `List Nat`; `str.encode('utf-8')` and
`bytes.decode('utf-8')` are modelled by a real UTF-8 codec below.  JSON
serialisation follows CPython `json.dumps` with its default separators
(`", "` and `": "`); parsing models `json.loads` restricted to the flat
payload grammar of this protocol (an object whose values are strings
without escape sequences, or integers) — every frame this device family
exchanges is of that shape. -/

def lbraceCh : Char := Char.ofNat 123

def rbraceCh : Char := Char.ofNat 125

def quoteCh : Char := Char.ofNat 34

def backslashCh : Char := Char.ofNat 92

def colonCh : Char := ':'

def commaCh : Char := ','

def spaceCh : Char := ' '

def minusCh : Char := '-'

/-- Decimal rendering of a natural number, most significant digit first. -/
def renderNat (n : Nat) : Str :=
  if n = 0 then [Char.ofNat 48]
  else (Nat.digits 10 n).reverse.map (fun d => Char.ofNat (48 + d))

/-- CPython rendering of an `int` in JSON output. -/
def renderInt (n : Int) : Str :=
  if n < 0 then minusCh :: renderNat n.natAbs else renderNat n.toNat

/-- Serialisation (`json.dumps`) of one value of the flat payload grammar. -/
def dumpsVal : JVal → Str
  | JVal.str s => quoteCh :: s ++ [quoteCh]
  | JVal.int n => renderInt n

/-- Serialisation of one `"key": value` member. -/
def dumpsEntry (k : Str) (v : JVal) : Str :=
  quoteCh :: k ++ quoteCh :: colonCh :: spaceCh :: dumpsVal v

/-- Serialisation of the members of a dict, joined by the default `", "`. -/
def dumpsMembers : Payload → Str
  | [] => []
  | [(k, v)] => dumpsEntry k v
  | (k, v) :: kv :: rest => dumpsEntry k v ++ commaCh :: spaceCh :: dumpsMembers (kv :: rest)

/-- Serialisation (`json.dumps`) of a payload dict. -/
def dumps (d : Payload) : Str := lbraceCh :: dumpsMembers d ++ [rbraceCh]

/-- UTF-8 encoding of one character. -/
def utf8EncodeChar (c : Char) : List Nat :=
  let n := c.toNat
  if n < 0x80 then [n]
  else if n < 0x800 then [0xC0 + n / 0x40, 0x80 + n % 0x40]
  else if n < 0x10000 then
    [0xE0 + n / 0x1000, 0x80 + n / 0x40 % 0x40, 0x80 + n % 0x40]
  else
    [0xF0 + n / 0x40000, 0x80 + n / 0x1000 % 0x40, 0x80 + n / 0x40 % 0x40,
     0x80 + n % 0x40]

/-- Embedding of `str.encode('utf-8')`. -/
def utf8Encode (s : Str) : List Nat := (s.map utf8EncodeChar).flatten

/-- A UTF-8 continuation byte. -/
def isContByte (b : Nat) : Bool := decide (0x80 ≤ b ∧ b < 0xC0)

/-- Decode the continuation of a 2-byte UTF-8 sequence with lead byte `b`,
rejecting overlong encodings. -/
def utf8Two (b : Nat) : List Nat → Option (Nat × List Nat)
  | b2 :: bs2 =>
    if isContByte b2 then
      let cp := (b - 0xC0) * 0x40 + (b2 - 0x80)
      if cp < 0x80 then none else some (cp, bs2)
    else none
  | [] => none

/-- Decode the continuation of a 3-byte UTF-8 sequence with lead byte `b`,
rejecting overlong encodings and surrogates. -/
def utf8Three (b : Nat) : List Nat → Option (Nat × List Nat)
  | b2 :: b3 :: bs3 =>
    if isContByte b2 && isContByte b3 then
      let cp := (b - 0xE0) * 0x1000 + (b2 - 0x80) * 0x40 + (b3 - 0x80)
      if cp < 0x800 then none
      else if 0xD800 ≤ cp ∧ cp < 0xE000 then none
      else some (cp, bs3)
    else none
  | _ => none

/-- Decode the continuation of a 4-byte UTF-8 sequence with lead byte `b`,
rejecting overlong encodings and codepoints beyond U+10FFFF. -/
def utf8Four (b : Nat) : List Nat → Option (Nat × List Nat)
  | b2 :: b3 :: b4 :: bs4 =>
    if isContByte b2 && isContByte b3 && isContByte b4 then
      let cp := (b - 0xF0) * 0x40000 + (b2 - 0x80) * 0x1000 +
        (b3 - 0x80) * 0x40 + (b4 - 0x80)
      if cp < 0x10000 then none
      else if 0x10FFFF < cp then none
      else some (cp, bs4)
    else none
  | _ => none

/-- Decode one UTF-8 sequence from the head of a byte list, returning the
codepoint and the remaining bytes; `none` on an empty list, a stray
continuation byte, an invalid lead byte, or an invalid sequence. -/
def utf8Step : List Nat → Option (Nat × List Nat)
  | [] => none
  | b :: bs =>
    if b < 0x80 then some (b, bs)
    else if b < 0xC0 then none
    else if b < 0xE0 then utf8Two b bs
    else if b < 0xF0 then utf8Three b bs
    else if b < 0xF5 then utf8Four b bs
    else none

/-- The decode loop; `fuel` bounds the number of decoded codepoints (each
step consumes at least one byte, so a fuel of the byte count never runs
out). -/
def utf8DecodeAux : Nat → List Nat → Option Str
  | _, [] => some []
  | 0, _ :: _ => none
  | fuel + 1, b :: bs =>
    match utf8Step (b :: bs) with
    | none => none
    | some (cp, rest) =>
      match utf8DecodeAux fuel rest with
      | some cs => some (Char.ofNat cp :: cs)
      | none => none

/-- Embedding of `bytes.decode('utf-8')`: strict decoding; `none` on stray continuation
bytes, truncated sequences, overlong encodings, surrogates, or codepoints
beyond U+10FFFF (CPython raises `UnicodeDecodeError` in all those cases). -/
def utf8Decode (l : List Nat) : Option Str := utf8DecodeAux l.length l

/-- Python whitespace as recognised by `str.strip()` (ASCII range). -/
def isPyWs (c : Char) : Bool := decide (c.toNat = 32 ∨ (9 ≤ c.toNat ∧ c.toNat ≤ 13))

/-- Embedding of `str.strip()`. -/
def pyStrip (s : Str) : Str :=
  ((s.dropWhile isPyWs).reverse.dropWhile isPyWs).reverse

/-- JSON whitespace (RFC 8259 / CPython `json`). -/
def isJsonWs (c : Char) : Bool :=
  decide (c.toNat = 32 ∨ c.toNat = 9 ∨ c.toNat = 10 ∨ c.toNat = 13)

def skipWs (s : Str) : Str := s.dropWhile isJsonWs

/-- A character allowed inside a JSON string literal without escaping. -/
def strBodyChar (c : Char) : Bool := c != quoteCh && c != backslashCh

/-- Parse a JSON string literal (no escape sequences — the payloads of this
protocol never contain them); returns the content and the remaining input. -/
def parseJStr : Str → Option (Str × Str)
  | [] => none
  | c :: rest =>
    if c = quoteCh then
      match rest.dropWhile strBodyChar with
      | c2 :: tail =>
        if c2 = quoteCh then some (rest.takeWhile strBodyChar, tail) else none
      | [] => none
    else none

def isDigitCh (c : Char) : Bool := decide (48 ≤ c.toNat ∧ c.toNat ≤ 57)

/-- Decimal value of a run of digit characters, most significant first. -/
def digitsVal (ds : Str) : Nat := ds.foldl (fun a c => a * 10 + (c.toNat - 48)) 0

/-- Parse a nonempty run of decimal digits. -/
def parseDigits (l : Str) : Option (Nat × Str) :=
  if (l.takeWhile isDigitCh).isEmpty then none
  else some (digitsVal (l.takeWhile isDigitCh), l.dropWhile isDigitCh)

/-- Parse a JSON integer (optional leading minus, then digits). -/
def parseJNum : Str → Option (Int × Str)
  | [] => none
  | c :: rest =>
    if c = minusCh then
      match parseDigits rest with
      | some (n, r) => some (-(n : Int), r)
      | none => none
    else
      match parseDigits (c :: rest) with
      | some (n, r) => some ((n : Int), r)
      | none => none

/-- Parse one JSON value of the flat payload grammar. -/
def parseJVal (l : Str) : Option (JVal × Str) :=
  match l with
  | [] => none
  | c :: _ =>
    if c = quoteCh then
      match parseJStr l with
      | some (s, r) => some (JVal.str s, r)
      | none => none
    else
      match parseJNum l with
      | some (n, r) => some (JVal.int n, r)
      | none => none

/-- Parse the nonempty member list of a JSON object, up to and including the
closing brace; `fuel` bounds the recursion (one unit per member). -/
def parseMembers : Nat → Str → Option (Payload × Str)
  | 0, _ => none
  | fuel + 1, l =>
    match parseJStr l with
    | none => none
    | some (k, rest) =>
      match skipWs rest with
      | [] => none
      | c :: rest2 =>
        if c = colonCh then
          match parseJVal (skipWs rest2) with
          | none => none
          | some (v, rest3) =>
            match skipWs rest3 with
            | [] => none
            | c2 :: rest4 =>
              if c2 = commaCh then
                match parseMembers fuel (skipWs rest4) with
                | some (p, tail) => some ((k, v) :: p, tail)
                | none => none
              else if c2 = rbraceCh then some ([(k, v)], rest4)
              else none
        else none

/-- Embedding of `json.loads` restricted to the flat payload grammar: a single object
with string/integer values, with arbitrary surrounding whitespace; `none`
(a `JSONDecodeError` in Python) on anything else. -/
def loads (l : Str) : Option Payload :=
  match skipWs l with
  | [] => none
  | c :: rest =>
    if c = lbraceCh then
      match skipWs rest with
      | [] => none
      | c2 :: tail =>
        if c2 = rbraceCh then
          if (skipWs tail).isEmpty then some [] else none
        else
          match parseMembers (l.length + 1) (c2 :: tail) with
          | some (d, tail2) => if (skipWs tail2).isEmpty then some d else none
          | none => none
    else none

/-- The body of the `try` block in `_parse_response`, namely
`data[start:end].decode('utf-8').strip()` + `json.loads`;
the `try` block in `_parse_response`; `none` means the slice failed to
decode and is skipped. -/
def decodeSlice (bytes : List Nat) : Option Payload :=
  match utf8Decode bytes with
  | none => none
  | some cs => loads (pyStrip cs)

/-- The payload prefix `MCU+PAS+` as bytes (`PAYLOAD_PREFIX.encode()`). -/
def prefixBytes : List Nat := PAYLOAD_PREFIX.map Char.toNat

/-- The payload suffix `&` as bytes (`PAYLOAD_SUFFIX.encode()`). -/
def suffixBytes : List Nat := PAYLOAD_SUFFIX.map Char.toNat

/-- Embedding of `data.find(pat, start)`, in structural form: split `l` at the first
occurrence of `pat`, returning the part before the occurrence and the part
after it (`none` when `pat` does not occur). -/
def splitOnFirst (pat : List Nat) : List Nat → Option (List Nat × List Nat)
  | [] => none
  | b :: bs =>
    if pat.isPrefixOf (b :: bs) then some ([], (b :: bs).drop pat.length)
    else
      match splitOnFirst pat bs with
      | some (a, r) => some (b :: a, r)
      | none => none

/-- A successful split decomposes the input around the pattern. -/
def splitOnFirst_decomp {pat : List Nat} :
    ∀ {l a r : List Nat}, splitOnFirst pat l = some (a, r) → l = a ++ pat ++ r := by
  intro l
  induction l with
  | nil => intro a r h; simp [splitOnFirst] at h
  | cons b bs ih =>
    intro a r h
    rw [splitOnFirst] at h
    by_cases hp : pat.isPrefixOf (b :: bs)
    · rw [if_pos hp] at h
      obtain ⟨t, ht⟩ := List.isPrefixOf_iff_prefix.mp hp
      simp only [Option.some.injEq, Prod.mk.injEq] at h
      obtain ⟨ha, hr⟩ := h
      subst ha
      subst hr
      rw [← ht, List.drop_left]
      simp
    · rw [if_neg hp] at h
      cases hs : splitOnFirst pat bs with
      | none => rw [hs] at h; simp at h
      | some p =>
        rw [hs] at h
        obtain ⟨a', r'⟩ := p
        simp at h
        obtain ⟨ha, hr⟩ := h
        subst ha; subst hr
        have := ih hs
        simp [this]

/-- The remainder of a successful split on a nonempty pattern is strictly
shorter than the input. -/
def splitOnFirst_length {pat l a r : List Nat} (hpat : pat ≠ [])
    (h : splitOnFirst pat l = some (a, r)) : r.length < l.length := by
  have hd := splitOnFirst_decomp h
  subst hd
  simp only [List.length_append]
  have : 0 < pat.length := List.length_pos.mpr hpat
  omega

/-- Embedding of `_parse_response` (`api.py` lines 98-128).  The index-based Python loop
is translated structurally: finding the prefix from `search_start` in the
original buffer is finding it in the not-yet-consumed remainder; setting
`search_start = end + len(suffix)` is recursing on what follows the suffix
occurrence.  A slice that fails to decode is skipped; a missing prefix or
missing suffix ends the scan. -/
def parse_response (data : List Nat) : List Payload :=
  match h1 : splitOnFirst prefixBytes data with
  | none => []
  | some (_, afterPre) =>
    match h2 : splitOnFirst suffixBytes afterPre with
    | none => []
    | some (slice, afterSuf) =>
      match decodeSlice slice with
      | some parsed => parsed :: parse_response afterSuf
      | none => parse_response afterSuf
termination_by data.length
decreasing_by
  all_goals
    have l1 : afterPre.length < data.length :=
      splitOnFirst_length (by decide) h1
    have l2 : afterSuf.length < afterPre.length :=
      splitOnFirst_length (by decide) h2
    omega

/-- Embedding of `_build_frame` (`api.py` lines 91-96): wrap the JSON serialisation in
the textual prefix/suffix, UTF-8 encode, and prepend the 4-byte magic
header, the little-endian 32-bit payload length and 12 zero padding
bytes. -/
def encodeLE32 (n : Nat) : List Nat :=
  [n % 256, n / 256 % 256, n / 65536 % 256, n / 16777216 % 256]

def build_frame (data : Payload) : List Nat :=
  let payload_bytes := utf8Encode (PAYLOAD_PREFIX ++ dumps data ++ PAYLOAD_SUFFIX)
  FRAME_HEADER ++ encodeLE32 payload_bytes.length ++ FRAME_PADDING ++ payload_bytes

/-- The payload dictionaries this protocol exchanges: printable-ASCII keys
and string values with no characters that `json.dumps` would escape, and
distinct keys (they come from Python dicts). -/
def goodChar (c : Char) : Prop :=
  32 ≤ c.toNat ∧ c.toNat < 127 ∧ c ≠ quoteCh ∧ c ≠ backslashCh

instance : DecidablePred goodChar := fun c => by unfold goodChar; infer_instance

def goodStr (s : Str) : Prop := ∀ c ∈ s, goodChar c

instance : DecidablePred goodStr := fun s => List.decidableBAll _ s

def goodVal : JVal → Prop
  | JVal.str s => goodStr s
  | JVal.int _ => True

instance : DecidablePred goodVal := fun v => by
  cases v <;> unfold goodVal <;> infer_instance

def WellFormedPayload (d : Payload) : Prop :=
  (∀ kv ∈ d, goodStr kv.1 ∧ goodVal kv.2) ∧
    d.Pairwise (fun a b => a.1 ≠ b.1)

instance : DecidablePred WellFormedPayload := fun d => by
  unfold WellFormedPayload; infer_instance

/-! ## Theorems -/

/-- Closed form of the reconnect delay after `k` backoff updates starting
from the 1-second floor. -/
theorem backoff_iterate_closed_form (k : Nat) :
    backoff_next^[k] 1 = min (2 ^ k) 60 := by
  induction k with
  | zero => simp
  | succ k ih =>
    rw [Function.iterate_succ_apply', ih, backoff_next, pow_succ]
    omega

/-- The list `backoff_waits` collects the iterates of the delay-doubling step. -/
theorem backoff_waits_eq_iterates (n : Nat) :
    ∀ d : Nat, backoff_waits d n = (List.range n).map (fun k => backoff_next^[k] d) := by
  induction n with
  | zero => intro d; rfl
  | succ n ih =>
    intro d
    rw [backoff_waits, ih (backoff_next d), List.range_succ_eq_map,
      List.map_cons, List.map_map]
    refine congrArg₂ (· :: ·) rfl ?_
    exact List.map_congr_left
      (fun k _ => (Function.iterate_succ_apply backoff_next k d).symm)

/-- C4: the reconnect backoff produces the wait sequence
1, 2, 4, 8, 16, 32, 60, 60, ... over consecutive failed reconnect attempts —
the n-th wait is `min (2^n) 60`, so the first eight waits are exactly the
listed ones and every later wait stays at the 60-second cap — and a
successful connect resets the stored delay back to the 1-second floor. -/
theorem reconnect_backoff_sequence :
    (∀ n : Nat, backoff_waits 1 n = (List.range n).map (fun k => min (2 ^ k) 60)) ∧
    backoff_waits 1 8 = [1, 2, 4, 8, 16, 32, 60, 60] ∧
    (∀ n : Nat, 6 ≤ n → backoff_next^[n] 1 = 60) ∧
    (∀ s : LinkState, s.connected = false → (connect_update s true).reconnect_delay = 1) := by
  refine ⟨?_, ?_, ?_, ?_⟩
  · intro n
    rw [backoff_waits_eq_iterates]
    exact List.map_congr_left (fun k _ => backoff_iterate_closed_form k)
  · rw [backoff_waits_eq_iterates]
    decide
  · intro n hn
    rw [backoff_iterate_closed_form]
    have : 64 ≤ 2 ^ n := by
      calc (64 : Nat) = 2 ^ 6 := by norm_num
      _ ≤ 2 ^ n := Nat.pow_le_pow_right (by norm_num) hn
    omega
  · intro s hs
    simp [connect_update, hs]

/-- C4 witness: a concrete run of eight failures produces the listed waits,
the tenth wait is capped at 60, and connecting from a disconnected link
with delay 60 resets the delay to 1. -/
theorem reconnect_backoff_sequence_witness :
    backoff_waits 1 8 = [1, 2, 4, 8, 16, 32, 60, 60] ∧
    backoff_next^[10] 1 = 60 ∧
    (connect_update ⟨false, 60⟩ true).reconnect_delay = 1 :=
  ⟨reconnect_backoff_sequence.2.1,
   reconnect_backoff_sequence.2.2.1 10 (by norm_num),
   reconnect_backoff_sequence.2.2.2 ⟨false, 60⟩ rfl⟩

/-- C6: the colour-temperature inversion is self-inverse on
[2200, 7000]. -/
theorem invert_color_temp_self_inverse (x : Int) (h1 : 2200 ≤ x)
    (h2 : x ≤ 7000) : invert_color_temp (invert_color_temp x) = x := by
  unfold invert_color_temp MIN_COLOR_TEMP_KELVIN MAX_COLOR_TEMP_KELVIN
  omega

/-- C6 witness: the inversion applied twice at 3000 K gives back 3000. -/
theorem invert_color_temp_self_inverse_witness :
    invert_color_temp (invert_color_temp 3000) = 3000 :=
  invert_color_temp_self_inverse 3000 (by norm_num) (by norm_num)

/-- C7: `_notify_state_change` invokes every registered callback in
registration order (the trace is exactly the identifier list), and returns
normally whatever exceptions individual callbacks raise — a raising
callback prevents neither the remaining invocations nor the normal
return. -/
theorem notify_state_change_isolates_listeners (cbs : List Callback) :
    notify_state_change cbs = Except.ok (cbs.map Callback.id) := by
  induction cbs with
  | nil => rfl
  | cons c rest ih =>
    rw [notify_state_change]
    cases hc : c.run <;> simp [guardedCall, hc, ih]

/-! ### Field framing of the update blocks -/

/-- The fan-power block touches only `fan_power`. -/
theorem apply_fan_power_frame (s : DeviceState) (c : Bool) (p : Payload) :
    (apply_fan_power s c p).1.light_power = s.light_power ∧
    (apply_fan_power s c p).1.brightness = s.brightness ∧
    (apply_fan_power s c p).1.color_temp = s.color_temp := by
  unfold apply_fan_power
  cases lookupKey p KEY_FAN_POWER <;> simp <;> split <;> simp

/-- The light-power block touches only `light_power`. -/
theorem apply_light_power_frame (s : DeviceState) (c : Bool) (p : Payload) :
    (apply_light_power s c p).1.fan_power = s.fan_power ∧
    (apply_light_power s c p).1.brightness = s.brightness ∧
    (apply_light_power s c p).1.color_temp = s.color_temp := by
  unfold apply_light_power
  cases lookupKey p KEY_LIGHT_POWER <;> simp <;> split <;> simp

/-- The percentage block touches only `brightness`. -/
theorem apply_percentage_frame (s : DeviceState) (c : Bool) (p : Payload) :
    (apply_percentage s c p).1.fan_power = s.fan_power ∧
    (apply_percentage s c p).1.light_power = s.light_power ∧
    (apply_percentage s c p).1.color_temp = s.color_temp := by
  unfold apply_percentage
  cases h : lookupKey p KEY_PERCENTAGE with
  | none => simp
  | some v =>
    cases v with
    | str t => simp
    | int n =>
      by_cases h1 : n ≤ 100 <;> by_cases h2 : s.brightness = n <;>
        simp [h1, h2]

/-- The colour-temperature block touches only `color_temp`. -/
theorem apply_color_temp_frame (s : DeviceState) (c : Bool) (p : Payload) :
    (apply_color_temp s c p).state.fan_power = s.fan_power ∧
    (apply_color_temp s c p).state.light_power = s.light_power ∧
    (apply_color_temp s c p).state.brightness = s.brightness := by
  unfold apply_color_temp
  cases h : lookupKey p KEY_COLOR_TEMPERATURE with
  | none => simp
  | some v => cases v <;> simp <;> split <;> simp

/-- After the fan block, `fan_power` holds the decoded payload value. -/
theorem apply_fan_power_sets (s : DeviceState) (c : Bool) (p : Payload)
    (v : JVal) (h : lookupKey p KEY_FAN_POWER = some v) :
    (apply_fan_power s c p).1.fan_power = (v == JVal.str VALUE_ON) := by
  simp only [apply_fan_power, h]
  by_cases hne : s.fan_power ≠ (v == JVal.str VALUE_ON)
  · simp [hne]
  · rw [not_not] at hne
    simp [hne]

/-- After the light block, `light_power` holds the decoded payload value. -/
theorem apply_light_power_sets (s : DeviceState) (c : Bool) (p : Payload)
    (v : JVal) (h : lookupKey p KEY_LIGHT_POWER = some v) :
    (apply_light_power s c p).1.light_power = (v == JVal.str VALUE_ON) := by
  simp only [apply_light_power, h]
  by_cases hne : s.light_power ≠ (v == JVal.str VALUE_ON)
  · simp [hne]
  · rw [not_not] at hne
    simp [hne]

/-- After the percentage block, an in-range numeric value is stored. -/
theorem apply_percentage_sets (s : DeviceState) (c : Bool) (p : Payload)
    (n : Int) (h : lookupKey p KEY_PERCENTAGE = some (JVal.int n))
    (hle : n ≤ 100) : (apply_percentage s c p).1.brightness = n := by
  simp only [apply_percentage, h]
  by_cases hne : s.brightness ≠ n
  · simp [hle, hne]
  · rw [not_not] at hne
    simp [hle, hne]

/-- The percentage block leaves `brightness` unchanged when the value is
not numeric or exceeds 100. -/
theorem apply_percentage_ignores (s : DeviceState) (c : Bool) (p : Payload)
    (h : ∀ n : Int, lookupKey p KEY_PERCENTAGE = some (JVal.int n) → ¬ n ≤ 100) :
    (apply_percentage s c p).1.brightness = s.brightness := by
  unfold apply_percentage
  cases hv : lookupKey p KEY_PERCENTAGE with
  | none => simp
  | some v =>
    cases v with
    | str _ => simp
    | int n => simp [h n hv]

/-- After the colour-temperature block, a numeric value is stored
inverted. -/
theorem apply_color_temp_sets (s : DeviceState) (c : Bool) (p : Payload)
    (n : Int) (h : lookupKey p KEY_COLOR_TEMPERATURE = some (JVal.int n)) :
    (apply_color_temp s c p).state.color_temp = invert_color_temp n := by
  simp only [apply_color_temp, h]
  by_cases hne : s.color_temp ≠ invert_color_temp n
  · simp [hne]
  · rw [not_not] at hne
    simp [hne]

/-- C3: a received update whose `percentage` value is at least the 255
sentinel leaves the stored brightness unchanged, wherever the state
currently is and whatever else the payload contains. -/
theorem percentage_sentinel_ignored (s : DeviceState) (parsed : Payload)
    (n : Int) (hlook : lookupKey parsed KEY_PERCENTAGE = some (JVal.int n))
    (h255 : 255 ≤ n) :
    (update_state_from_response s parsed).state.brightness = s.brightness := by
  unfold update_state_from_response
  rw [(apply_color_temp_frame _ _ _).2.2,
    apply_percentage_ignores _ _ _ ?_,
    (apply_light_power_frame _ _ _).2.1,
    (apply_fan_power_frame _ _ _).2.1]
  intro m hm
  rw [hlook] at hm
  simp only [Option.some.injEq, JVal.int.injEq] at hm
  omega

/-- C3 witness: the literal 255 sentinel leaves the initial brightness of
100 in place. -/
theorem percentage_sentinel_ignored_witness :
    (update_state_from_response initialState
      [(KEY_PERCENTAGE, JVal.int 255)]).state.brightness =
      initialState.brightness :=
  percentage_sentinel_ignored initialState [(KEY_PERCENTAGE, JVal.int 255)]
    255 (by decide) (by norm_num)

/-- C10: a received `percentage` value is applied to the stored brightness
exactly when it is numeric and at most 100: values above 100 (150, the 255
sentinel, ...) and non-numeric values (the `""` query echo) are ignored,
while negative numeric values are stored since no lower bound is
checked. -/
theorem percentage_acceptance_rule (s : DeviceState) (v : JVal) :
    (update_state_from_response s [(KEY_PERCENTAGE, v)]).state.brightness =
      (match v with
       | JVal.int n => if n ≤ 100 then n else s.brightness
       | JVal.str _ => s.brightness) := by
  unfold update_state_from_response
  rw [(apply_color_temp_frame _ _ _).2.2]
  cases v with
  | str t =>
    rw [apply_percentage_ignores _ _ _ ?_,
      (apply_light_power_frame _ _ _).2.1, (apply_fan_power_frame _ _ _).2.1]
    intro m hm
    simp [lookupKey, List.find?, KEY_PERCENTAGE] at hm
  | int n =>
    by_cases hle : n ≤ 100
    · rw [apply_percentage_sets _ _ _ n ?_ hle]
      · simp [hle]
      · have h1 := (apply_fan_power_frame s false [(KEY_PERCENTAGE, JVal.int n)]).2.1
        simp [lookupKey, List.find?, KEY_PERCENTAGE]
    · rw [apply_percentage_ignores _ _ _ ?_,
        (apply_light_power_frame _ _ _).2.1, (apply_fan_power_frame _ _ _).2.1]
      · simp [hle]
      · intro m hm
        simp [lookupKey, List.find?, KEY_PERCENTAGE] at hm
        omega

/-- C1: whenever `_send_command` returns success, the device state has been
run through the same `_update_state_from_response` path used for received
data on the command payload itself — so each field named in the payload is
immediately reflected (fan/light power as `== "ON"`, an in-range
percentage as brightness, a numeric colour temperature inverted), with no
echo from the device involved. -/
theorem send_command_optimistic_update (connected connectOk writeOk : Bool)
    (s : DeviceState) (data : Payload) (s' : DeviceState)
    (hsend : send_command connected connectOk writeOk s data = (s', true)) :
    s' = (update_state_from_response s data).state ∧
    (∀ v, lookupKey data KEY_FAN_POWER = some v →
      s'.fan_power = (v == JVal.str VALUE_ON)) ∧
    (∀ v, lookupKey data KEY_LIGHT_POWER = some v →
      s'.light_power = (v == JVal.str VALUE_ON)) ∧
    (∀ n : Int, lookupKey data KEY_PERCENTAGE = some (JVal.int n) → n ≤ 100 →
      s'.brightness = n) ∧
    (∀ n : Int, lookupKey data KEY_COLOR_TEMPERATURE = some (JVal.int n) →
      s'.color_temp = invert_color_temp n) := by
  have hstate : s' = (update_state_from_response s data).state := by
    unfold send_command at hsend
    by_cases hc : ¬connected ∧ ¬connectOk
    · simp [hc] at hsend
    · rw [if_neg hc] at hsend
      by_cases hw : writeOk = true
      · rw [if_pos hw] at hsend
        by_cases he : (update_state_from_response s data).errored
        · simp [he] at hsend
        · simp [he] at hsend
          exact hsend.symm
      · simp [hw] at hsend
  refine ⟨hstate, ?_, ?_, ?_, ?_⟩ <;> rw [hstate] <;> unfold update_state_from_response
  · intro v hv
    rw [(apply_color_temp_frame _ _ _).1, (apply_percentage_frame _ _ _).1,
      (apply_light_power_frame _ _ _).1, apply_fan_power_sets _ _ _ v hv]
  · intro v hv
    rw [(apply_color_temp_frame _ _ _).2.1, (apply_percentage_frame _ _ _).2.1,
      apply_light_power_sets _ _ _ v hv]
  · intro n hn hle
    rw [(apply_color_temp_frame _ _ _).2.2, apply_percentage_sets _ _ _ n hn hle]
  · intro n hn
    rw [apply_color_temp_sets _ _ _ n hn]

/-- C1 witness: sending `{fan_power: "ON"}` from the initial (fan off)
state succeeds and the stored `fan_power` is immediately `true`. -/
theorem send_command_optimistic_update_witness :
    ((send_command true true true initialState
      [(KEY_FAN_POWER, JVal.str VALUE_ON)]).1).fan_power = true := by
  have hsend : send_command true true true initialState
      [(KEY_FAN_POWER, JVal.str VALUE_ON)] =
      ((send_command true true true initialState
        [(KEY_FAN_POWER, JVal.str VALUE_ON)]).1, true) := by decide
  have h := (send_command_optimistic_update true true true initialState
    [(KEY_FAN_POWER, JVal.str VALUE_ON)] _ hsend).2.1
    (JVal.str VALUE_ON) (by decide)
  simpa using h

/-- C8: `fetch_device_info` yields a device exactly when the HTTP fetch of
the description succeeded with status 200 and parsed to a `<device>`
element, the manufacturer text contains the expected vendor string, and
control port 8899 was independently confirmed reachable — so absent or
malformed XML, a wrong manufacturer, or a closed control port (even with a
correct description) all yield `none`. -/
theorem fetch_device_info_checks (host : Str) (env : HostEnv) :
    (∃ dev, fetch_device_info host env = some dev) ↔
      ∃ d : XmlDevice, env.httpResponse = some (200, XmlOutcome.device d) ∧
        strContains LINKPLAY_MANUFACTURER (d.manufacturer.getD []) = true ∧
        env.controlPortOpen = true := by
  cases henv : env.httpResponse with
  | none => simp [fetch_device_info, henv]
  | some p =>
    obtain ⟨st, body⟩ := p
    by_cases hst : st = 200
    · subst hst
      cases body with
      | parseError => simp [fetch_device_info, henv]
      | noDevice => simp [fetch_device_info, henv]
      | device dev =>
        by_cases hman :
            strContains LINKPLAY_MANUFACTURER (dev.manufacturer.getD []) = true
        · by_cases hport : env.controlPortOpen = true <;>
            simp [fetch_device_info, henv, hman, hport]
        · simp [fetch_device_info, henv, hman]
    · simp [fetch_device_info, henv, hst]

/-! ### Generic list scanning facts -/

/-- Splitting with `takeWhile`/`dropWhile`: they cut a list around the first failure of the
predicate. -/
theorem span_append {α} (p : α → Bool) :
    ∀ (k rest : List α), (∀ c ∈ k, p c = true) →
      (∀ x ∈ rest.head?, p x = false) →
      (k ++ rest).takeWhile p = k ∧ (k ++ rest).dropWhile p = rest := by
  intro k
  induction k with
  | nil =>
    intro rest _ hrest
    cases rest with
    | nil => exact ⟨rfl, rfl⟩
    | cons r rs =>
      have hr : p r = false := hrest r rfl
      simp [List.takeWhile_cons, List.dropWhile_cons, hr]
  | cons c k' ih =>
    intro rest hk hrest
    have hc : p c = true := hk c (List.mem_cons_self c k')
    have h' := ih rest (fun x hx => hk x (List.mem_cons_of_mem c hx)) hrest
    simp [List.takeWhile_cons, List.dropWhile_cons, hc, h'.1, h'.2]

/-- The map `Char.toNat` is injective. -/
theorem char_toNat_inj {a b : Char} (h : a.toNat = b.toNat) : a = b :=
  Char.ext (UInt32.ext h)

/-! ### Decimal rendering round-trip -/

theorem digitChar_toNat {d : Nat} (hd : d < 10) :
    (Char.ofNat (48 + d)).toNat = 48 + d := by
  interval_cases d <;> decide

theorem isDigitCh_digitChar {d : Nat} (hd : d < 10) :
    isDigitCh (Char.ofNat (48 + d)) = true := by
  interval_cases d <;> decide

/-- Every character produced by `renderNat` is a decimal digit. -/
theorem renderNat_digits (n : Nat) : ∀ c ∈ renderNat n, isDigitCh c = true := by
  intro c hc
  unfold renderNat at hc
  by_cases hn : n = 0
  · rw [if_pos hn] at hc
    rw [List.mem_singleton] at hc
    subst hc
    decide
  · rw [if_neg hn] at hc
    obtain ⟨d, hd, hcd⟩ := List.mem_map.mp hc
    rw [List.mem_reverse] at hd
    have : d < 10 := Nat.digits_lt_base (by norm_num) hd
    rw [← hcd]
    exact isDigitCh_digitChar this

theorem renderNat_ne_nil (n : Nat) : renderNat n ≠ [] := by
  unfold renderNat
  by_cases hn : n = 0
  · rw [if_pos hn]; simp
  · rw [if_neg hn]
    simp only [ne_eq, List.map_eq_nil_iff, List.reverse_eq_nil_iff]
    exact Nat.digits_ne_nil_iff_ne_zero.mpr hn

/-- Folding digit characters back into a number undoes the char coding. -/
theorem foldl_digit_chars (L : List Nat) (hL : ∀ d ∈ L, d < 10) :
    ∀ a : Nat, (L.map (fun d => Char.ofNat (48 + d))).foldl
      (fun acc c => acc * 10 + (c.toNat - 48)) a =
      L.foldl (fun acc d => acc * 10 + d) a := by
  induction L with
  | nil => intro a; rfl
  | cons d L' ih =>
    intro a
    have hd : d < 10 := hL d (List.mem_cons_self d L')
    simp only [List.map_cons, List.foldl_cons, digitChar_toNat hd]
    rw [ih (fun x hx => hL x (List.mem_cons_of_mem d hx))]
    congr 1
    omega

/-- Folding a little-endian digit list from the most significant end
computes `Nat.ofDigits`. -/
theorem foldr_ofDigits (L : List Nat) :
    ∀ a : Nat, L.foldr (fun d acc => acc * 10 + d) a =
      Nat.ofDigits 10 L + a * 10 ^ L.length := by
  induction L with
  | nil => intro a; simp [Nat.ofDigits]
  | cons d L' ih =>
    intro a
    simp only [List.foldr_cons, ih a, Nat.ofDigits_cons, List.length_cons]
    ring

/-- The decimal rendering evaluates back to the rendered number. -/
theorem digitsVal_renderNat (n : Nat) : digitsVal (renderNat n) = n := by
  unfold digitsVal renderNat
  by_cases hn : n = 0
  · rw [if_pos hn, hn]; decide
  · rw [if_neg hn]
    rw [foldl_digit_chars _ (fun d hd => by
      rw [List.mem_reverse] at hd
      exact Nat.digits_lt_base (by norm_num) hd)]
    rw [List.foldl_reverse]
    rw [foldr_ofDigits]
    simp [Nat.ofDigits_digits]

/-- Facts about digit characters versus the structural characters of the
payload grammar. -/
theorem isDigitCh_facts (c : Char) (h : isDigitCh c = true) :
    c ≠ minusCh ∧ c ≠ quoteCh ∧ c ≠ commaCh ∧ c ≠ rbraceCh ∧
    c ≠ lbraceCh ∧ isJsonWs c = false := by
  have hb : 48 ≤ c.toNat ∧ c.toNat ≤ 57 := of_decide_eq_true h
  refine ⟨?_, ?_, ?_, ?_, ?_, ?_⟩
  · intro he; subst he; exact absurd hb (by decide)
  · intro he; subst he; exact absurd hb (by decide)
  · intro he; subst he; exact absurd hb (by decide)
  · intro he; subst he; exact absurd hb (by decide)
  · intro he; subst he; exact absurd hb (by decide)
  · apply decide_eq_false
    intro hws
    rcases hws with h1 | h1 | h1 | h1 <;> omega

/-- The parser `parseDigits` consumes exactly a rendered number when followed by a
non-digit. -/
theorem parseDigits_renderNat (n : Nat) (rest : Str)
    (hrest : ∀ x ∈ rest.head?, isDigitCh x = false) :
    parseDigits (renderNat n ++ rest) = some (n, rest) := by
  obtain ⟨ht, hd⟩ := span_append isDigitCh (renderNat n) rest
    (renderNat_digits n) hrest
  unfold parseDigits
  rw [ht, hd]
  have hne : (renderNat n).isEmpty = false := by
    cases h : renderNat n with
    | nil => exact absurd h (renderNat_ne_nil n)
    | cons _ _ => rfl
  simp [hne, digitsVal_renderNat]

/-- The parser `parseJNum` reads back exactly a rendered integer when followed by a
non-digit. -/
theorem parseJNum_renderInt (i : Int) (rest : Str)
    (hrest : ∀ x ∈ rest.head?, isDigitCh x = false) :
    parseJNum (renderInt i ++ rest) = some (i, rest) := by
  unfold renderInt
  by_cases hneg : i < 0
  · rw [if_pos hneg]
    rw [List.cons_append]
    rw [parseJNum]
    rw [if_pos rfl, parseDigits_renderNat i.natAbs rest hrest]
    have h : -(i.natAbs : Int) = i := by omega
    show some (-(i.natAbs : Int), rest) = some (i, rest)
    rw [h]
  · rw [if_neg hneg]
    cases hr : renderNat i.toNat with
    | nil => exact absurd hr (renderNat_ne_nil _)
    | cons c cs =>
      have hcdig : isDigitCh c = true := by
        apply renderNat_digits i.toNat
        rw [hr]
        exact List.mem_cons_self c cs
      rw [List.cons_append]
      rw [parseJNum]
      rw [if_neg (isDigitCh_facts c hcdig).1, ← List.cons_append, ← hr,
        parseDigits_renderNat i.toNat rest hrest]
      have h : ((i.toNat : Nat) : Int) = i := Int.toNat_of_nonneg (by omega)
      show some ((i.toNat : Int), rest) = some (i, rest)
      rw [h]

/-! ### String and value parsing round-trips -/

/-- Characters of a well-formed payload string are plain string-body
characters (no quote, no backslash). -/
theorem goodStr_strBody {k : Str} (h : goodStr k) :
    ∀ c ∈ k, strBodyChar c = true := by
  intro c hc
  obtain ⟨_, _, hq, hb⟩ := h c hc
  simp [strBodyChar, hq, hb]

/-- The parser `parseJStr` reads back exactly a serialised string literal. -/
theorem parseJStr_round (k : Str) (rest : Str)
    (hk : ∀ c ∈ k, strBodyChar c = true) :
    parseJStr (quoteCh :: (k ++ quoteCh :: rest)) = some (k, rest) := by
  obtain ⟨ht, hd⟩ := span_append strBodyChar k (quoteCh :: rest) hk
    (by
      intro x hx
      simp only [List.head?_cons, Option.mem_def, Option.some.injEq] at hx
      subst hx
      decide)
  rw [parseJStr, if_pos rfl, hd, ht]
  simp

theorem renderInt_ne_nil (n : Int) : renderInt n ≠ [] := by
  unfold renderInt
  split
  · simp
  · exact renderNat_ne_nil _

theorem renderInt_head (n : Int) (c : Char) (cs : Str)
    (h : renderInt n = c :: cs) :
    c ≠ quoteCh ∧ isJsonWs c = false := by
  unfold renderInt at h
  split at h
  · have h1 : minusCh = c := (List.cons.injEq _ _ _ _ ▸ h).1
    rw [← h1]
    exact ⟨by decide, by decide⟩
  · have hdig : isDigitCh c = true := by
      apply renderNat_digits
      rw [h]
      exact List.mem_cons_self c cs
    exact ⟨(isDigitCh_facts c hdig).2.1, (isDigitCh_facts c hdig).2.2.2.2.2⟩

theorem dumpsVal_ne_nil (v : JVal) : dumpsVal v ≠ [] := by
  cases v with
  | str s => simp [dumpsVal]
  | int n => exact renderInt_ne_nil n

/-- The first character of a serialised value is never JSON whitespace. -/
theorem dumpsVal_head_not_ws (v : JVal) (c : Char) (cs : Str)
    (h : dumpsVal v = c :: cs) : isJsonWs c = false := by
  cases v with
  | str s =>
    have h1 : quoteCh = c := (List.cons.injEq _ _ _ _ ▸ h).1
    rw [← h1]
    decide
  | int n => exact (renderInt_head n c cs h).2

/-- The parser `parseJVal` reads back exactly a serialised value when the remainder
does not begin with a digit. -/
theorem parseJVal_round (v : JVal) (rest : Str) (hv : goodVal v)
    (hrest : ∀ x ∈ rest.head?, isDigitCh x = false) :
    parseJVal (dumpsVal v ++ rest) = some (v, rest) := by
  cases v with
  | str s =>
    have harr : dumpsVal (JVal.str s) ++ rest = quoteCh :: (s ++ quoteCh :: rest) := by
      simp [dumpsVal]
    rw [harr, parseJVal, if_pos rfl, parseJStr_round s rest (goodStr_strBody hv)]
  | int n =>
    cases hr : renderInt n with
    | nil => exact absurd hr (renderInt_ne_nil n)
    | cons c cs =>
      have harr : dumpsVal (JVal.int n) ++ rest = c :: (cs ++ rest) := by
        simp [dumpsVal, hr]
      rw [harr, parseJVal, if_neg (renderInt_head n c cs hr).1,
        ← List.cons_append, ← hr]
      show (match parseJNum (renderInt n ++ rest) with
        | some (m, r) => some (JVal.int m, r)
        | none => none) = some (JVal.int n, rest)
      rw [parseJNum_renderInt n rest hrest]

/-! ### Whitespace handling -/

theorem skipWs_not_ws {c : Char} (h : isJsonWs c = false) (t : Str) :
    skipWs (c :: t) = c :: t := by
  simp [skipWs, List.dropWhile_cons, h]

theorem skipWs_space (t : Str) : skipWs (spaceCh :: t) = skipWs t := by
  simp [skipWs, List.dropWhile_cons, (by decide : isJsonWs spaceCh = true)]

theorem skipWs_dumpsVal (v : JVal) (X : Str) :
    skipWs (dumpsVal v ++ X) = dumpsVal v ++ X := by
  cases hv : dumpsVal v with
  | nil => exact absurd hv (dumpsVal_ne_nil v)
  | cons c cs =>
    exact skipWs_not_ws (dumpsVal_head_not_ws v c cs hv) (cs ++ X)

/-- A nonempty serialised member list starts with the opening quote of its
first key. -/
theorem dumpsMembers_head (d : Payload) (hd : d ≠ []) :
    ∃ t, dumpsMembers d = quoteCh :: t := by
  cases d with
  | nil => exact absurd rfl hd
  | cons kv d' =>
    obtain ⟨k, v⟩ := kv
    cases d' with
    | nil => exact ⟨_, rfl⟩
    | cons kv2 d'' => exact ⟨_, rfl⟩

/-- Serialising a dict produces at least one character per member. -/
theorem length_le_dumpsMembers (d : Payload) :
    d.length ≤ (dumpsMembers d).length := by
  induction d with
  | nil => simp [dumpsMembers]
  | cons kv d' ih =>
    obtain ⟨k, v⟩ := kv
    cases d' with
    | nil => simp [dumpsMembers, dumpsEntry]
    | cons kv2 d'' =>
      have : dumpsMembers ((k, v) :: kv2 :: d'') =
          dumpsEntry k v ++ commaCh :: spaceCh :: dumpsMembers (kv2 :: d'') := rfl
      rw [this]
      simp only [List.length_cons, List.length_append]
      simp only [List.length_cons] at ih
      omega

/-- The parser `parseMembers` reads back exactly a serialised nonempty member list up
to the closing brace, for any sufficient fuel. -/
theorem parseMembers_round :
    ∀ (d : Payload), d ≠ [] →
      (∀ kv ∈ d, goodStr kv.1 ∧ goodVal kv.2) →
      ∀ (rest : Str) (fuel : Nat), d.length ≤ fuel →
        parseMembers fuel (dumpsMembers d ++ rbraceCh :: rest) =
          some (d, rest) := by
  intro d
  induction d with
  | nil => intro h; exact absurd rfl h
  | cons kv d' ih =>
    intro _ hgood rest fuel hfuel
    obtain ⟨k, v⟩ := kv
    have hgkv := hgood (k, v) (List.mem_cons_self _ _)
    obtain ⟨fuel', rfl⟩ : ∃ f, fuel = f + 1 :=
      ⟨fuel - 1, by simp at hfuel; omega⟩
    cases d' with
    | nil =>
      have hl : dumpsMembers [(k, v)] ++ rbraceCh :: rest =
          quoteCh :: (k ++ quoteCh :: (colonCh :: spaceCh ::
            (dumpsVal v ++ rbraceCh :: rest))) := by
        simp [dumpsMembers, dumpsEntry]
      have h1 := parseJStr_round k
        (colonCh :: spaceCh :: (dumpsVal v ++ rbraceCh :: rest))
        (goodStr_strBody hgkv.1)
      have h2 : skipWs (colonCh :: spaceCh :: (dumpsVal v ++ rbraceCh :: rest)) =
          colonCh :: spaceCh :: (dumpsVal v ++ rbraceCh :: rest) :=
        skipWs_not_ws (by decide) _
      have h3 : skipWs (spaceCh :: (dumpsVal v ++ rbraceCh :: rest)) =
          dumpsVal v ++ rbraceCh :: rest := by
        rw [skipWs_space]
        exact skipWs_dumpsVal v _
      have h4 : parseJVal (dumpsVal v ++ rbraceCh :: rest) =
          some (v, rbraceCh :: rest) :=
        parseJVal_round v _ hgkv.2 (by
          intro x hx
          simp only [List.head?_cons, Option.mem_def, Option.some.injEq] at hx
          subst hx
          decide)
      have h5 : skipWs (rbraceCh :: rest) = rbraceCh :: rest :=
        skipWs_not_ws (by decide) _
      rw [hl, parseMembers]
      simp only [h1, h2, h3, h4, h5, if_pos rfl,
        if_neg (by decide : ¬ rbraceCh = commaCh)]
      simp
    | cons kv2 d'' =>
      have hl : dumpsMembers ((k, v) :: kv2 :: d'') ++ rbraceCh :: rest =
          quoteCh :: (k ++ quoteCh :: (colonCh :: spaceCh ::
            (dumpsVal v ++ commaCh :: spaceCh ::
              (dumpsMembers (kv2 :: d'') ++ rbraceCh :: rest)))) := by
        simp [dumpsMembers, dumpsEntry]
      have h1 := parseJStr_round k
        (colonCh :: spaceCh :: (dumpsVal v ++ commaCh :: spaceCh ::
          (dumpsMembers (kv2 :: d'') ++ rbraceCh :: rest)))
        (goodStr_strBody hgkv.1)
      have h2 : skipWs (colonCh :: spaceCh :: (dumpsVal v ++ commaCh :: spaceCh ::
          (dumpsMembers (kv2 :: d'') ++ rbraceCh :: rest))) =
          colonCh :: spaceCh :: (dumpsVal v ++ commaCh :: spaceCh ::
            (dumpsMembers (kv2 :: d'') ++ rbraceCh :: rest)) :=
        skipWs_not_ws (by decide) _
      have h3 : skipWs (spaceCh :: (dumpsVal v ++ commaCh :: spaceCh ::
          (dumpsMembers (kv2 :: d'') ++ rbraceCh :: rest))) =
          dumpsVal v ++ commaCh :: spaceCh ::
            (dumpsMembers (kv2 :: d'') ++ rbraceCh :: rest) := by
        rw [skipWs_space]
        exact skipWs_dumpsVal v _
      have h4 : parseJVal (dumpsVal v ++ commaCh :: spaceCh ::
          (dumpsMembers (kv2 :: d'') ++ rbraceCh :: rest)) =
          some (v, commaCh :: spaceCh ::
            (dumpsMembers (kv2 :: d'') ++ rbraceCh :: rest)) :=
        parseJVal_round v _ hgkv.2 (by
          intro x hx
          simp only [List.head?_cons, Option.mem_def, Option.some.injEq] at hx
          subst hx
          decide)
      have h5 : skipWs (commaCh :: spaceCh ::
          (dumpsMembers (kv2 :: d'') ++ rbraceCh :: rest)) =
          commaCh :: spaceCh ::
            (dumpsMembers (kv2 :: d'') ++ rbraceCh :: rest) :=
        skipWs_not_ws (by decide) _
      have h6 : skipWs (spaceCh ::
          (dumpsMembers (kv2 :: d'') ++ rbraceCh :: rest)) =
          dumpsMembers (kv2 :: d'') ++ rbraceCh :: rest := by
        rw [skipWs_space]
        obtain ⟨t, ht⟩ := dumpsMembers_head (kv2 :: d'') (by simp)
        rw [ht, List.cons_append]
        exact skipWs_not_ws (by decide) _
      have h7 : parseMembers fuel' (dumpsMembers (kv2 :: d'') ++ rbraceCh :: rest) =
          some (kv2 :: d'', rest) := by
        apply ih (by simp) (fun x hx => hgood x (List.mem_cons_of_mem _ hx)) rest fuel'
        simp at hfuel ⊢
        omega
      rw [hl, parseMembers]
      simp only [h1, h2, h3, h4, h5, h6, h7, if_pos rfl]
      simp

/-- Round trip: `loads` inverts `dumps` on well-formed payload dicts. -/
theorem loads_dumps (d : Payload)
    (hgood : ∀ kv ∈ d, goodStr kv.1 ∧ goodVal kv.2) :
    loads (dumps d) = some d := by
  cases d with
  | nil => decide
  | cons kv d' =>
    have hne : (kv :: d' : Payload) ≠ [] := by simp
    obtain ⟨t, ht⟩ := dumpsMembers_head (kv :: d') hne
    have hd : dumps (kv :: d') =
        lbraceCh :: (dumpsMembers (kv :: d') ++ [rbraceCh]) := rfl
    have hskip1 : skipWs (dumps (kv :: d')) =
        lbraceCh :: (dumpsMembers (kv :: d') ++ [rbraceCh]) := by
      rw [hd]
      exact skipWs_not_ws (by decide) _
    have hskip2 : skipWs (dumpsMembers (kv :: d') ++ [rbraceCh]) =
        quoteCh :: (t ++ [rbraceCh]) := by
      rw [ht, List.cons_append]
      exact skipWs_not_ws (by decide) _
    have hmem : parseMembers ((dumps (kv :: d')).length + 1)
        (quoteCh :: (t ++ [rbraceCh])) = some (kv :: d', []) := by
      have harr : quoteCh :: (t ++ [rbraceCh]) =
          dumpsMembers (kv :: d') ++ rbraceCh :: [] := by
        rw [ht, List.cons_append]
      rw [harr]
      apply parseMembers_round (kv :: d') hne hgood []
      have h1 := length_le_dumpsMembers (kv :: d')
      rw [hd]
      simp only [List.length_cons, List.length_append] at h1 ⊢
      omega
    rw [loads]
    simp only [hskip1, hskip2, hmem, if_pos rfl,
      if_neg (by decide : ¬ quoteCh = rbraceCh)]
    simp [skipWs]

/-! ### ASCII facts about the serialisation, UTF-8 round trip, strip -/

theorem isDigitCh_lt128 {c : Char} (h : isDigitCh c = true) : c.toNat < 128 := by
  have hb : 48 ≤ c.toNat ∧ c.toNat ≤ 57 := of_decide_eq_true h
  omega

theorem renderNat_ascii (n : Nat) : ∀ c ∈ renderNat n, c.toNat < 128 :=
  fun c hc => isDigitCh_lt128 (renderNat_digits n c hc)

theorem renderInt_ascii (n : Int) : ∀ c ∈ renderInt n, c.toNat < 128 := by
  intro c hc
  unfold renderInt at hc
  split at hc
  · rcases List.mem_cons.mp hc with h | h
    · subst h; decide
    · exact renderNat_ascii _ c h
  · exact renderNat_ascii _ c hc

theorem dumpsVal_ascii (v : JVal) (hv : goodVal v) :
    ∀ c ∈ dumpsVal v, c.toNat < 128 := by
  intro c hc
  cases v with
  | str s =>
    simp only [dumpsVal] at hc
    rcases List.mem_cons.mp hc with h | h
    · subst h; decide
    · rcases List.mem_append.mp h with h2 | h2
      · obtain ⟨_, hlt, _, _⟩ := hv c h2
        omega
      · rw [List.mem_singleton] at h2
        subst h2; decide
  | int n => exact renderInt_ascii n c hc

theorem dumpsEntry_ascii (k : Str) (v : JVal) (hk : goodStr k)
    (hv : goodVal v) : ∀ c ∈ dumpsEntry k v, c.toNat < 128 := by
  intro c hc
  unfold dumpsEntry at hc
  rcases List.mem_cons.mp hc with h | h
  · subst h; decide
  rcases List.mem_append.mp h with h2 | h2
  · obtain ⟨_, hlt, _, _⟩ := hk c h2
    omega
  rcases List.mem_cons.mp h2 with h3 | h3
  · subst h3; decide
  rcases List.mem_cons.mp h3 with h4 | h4
  · subst h4; decide
  rcases List.mem_cons.mp h4 with h5 | h5
  · subst h5; decide
  · exact dumpsVal_ascii v hv c h5

theorem dumpsMembers_ascii :
    ∀ d : Payload, (∀ kv ∈ d, goodStr kv.1 ∧ goodVal kv.2) →
      ∀ c ∈ dumpsMembers d, c.toNat < 128 := by
  intro d
  induction d with
  | nil => intro _ c hc; simp [dumpsMembers] at hc
  | cons kv d' ih =>
    intro hgood c hc
    obtain ⟨k, v⟩ := kv
    have hgkv := hgood (k, v) (List.mem_cons_self _ _)
    cases d' with
    | nil => exact dumpsEntry_ascii k v hgkv.1 hgkv.2 c hc
    | cons kv2 d'' =>
      have hm : dumpsMembers ((k, v) :: kv2 :: d'') =
          dumpsEntry k v ++ commaCh :: spaceCh :: dumpsMembers (kv2 :: d'') := rfl
      rw [hm] at hc
      rcases List.mem_append.mp hc with h | h
      · exact dumpsEntry_ascii k v hgkv.1 hgkv.2 c h
      rcases List.mem_cons.mp h with h2 | h2
      · subst h2; decide
      rcases List.mem_cons.mp h2 with h3 | h3
      · subst h3; decide
      · exact ih (fun x hx => hgood x (List.mem_cons_of_mem _ hx)) c h3

theorem dumps_ascii (d : Payload)
    (hgood : ∀ kv ∈ d, goodStr kv.1 ∧ goodVal kv.2) :
    ∀ c ∈ dumps d, c.toNat < 128 := by
  intro c hc
  unfold dumps at hc
  rcases List.mem_cons.mp hc with h | h
  · subst h; decide
  rcases List.mem_append.mp h with h2 | h2
  · exact dumpsMembers_ascii d hgood c h2
  · rw [List.mem_singleton] at h2
    subst h2; decide

theorem utf8Encode_append (s t : Str) :
    utf8Encode (s ++ t) = utf8Encode s ++ utf8Encode t := by
  simp [utf8Encode]

/-- ASCII characters encode to their single code-point byte. -/
theorem utf8Encode_ascii (s : Str) (h : ∀ c ∈ s, c.toNat < 128) :
    utf8Encode s = s.map Char.toNat := by
  induction s with
  | nil => rfl
  | cons c s' ih =>
    have hc : c.toNat < 128 := h c (List.mem_cons_self c s')
    have henc : utf8EncodeChar c = [c.toNat] := by
      unfold utf8EncodeChar
      rw [if_pos hc]
    simp only [utf8Encode, List.map_cons, List.flatten_cons, henc]
    simp only [utf8Encode] at ih
    rw [ih (fun x hx => h x (List.mem_cons_of_mem c hx))]
    rfl

/-- The decode loop reads ASCII bytes back as the original characters, for
any sufficient fuel. -/
theorem utf8DecodeAux_ascii :
    ∀ (s : Str), (∀ c ∈ s, c.toNat < 128) →
      ∀ fuel, s.length ≤ fuel →
        utf8DecodeAux fuel (s.map Char.toNat) = some s := by
  intro s
  induction s with
  | nil =>
    intro _ fuel _
    cases fuel <;> rfl
  | cons c s' ih =>
    intro h fuel hfuel
    obtain ⟨f, rfl⟩ : ∃ f, fuel = f + 1 :=
      ⟨fuel - 1, by simp at hfuel; omega⟩
    have hc : c.toNat < 128 := h c (List.mem_cons_self c s')
    have hstep : utf8Step (c.toNat :: s'.map Char.toNat) =
        some (c.toNat, s'.map Char.toNat) := by
      rw [utf8Step, if_pos hc]
    have hrec := ih (fun x hx => h x (List.mem_cons_of_mem c hx)) f
      (by simp at hfuel ⊢; omega)
    simp only [List.map_cons, utf8DecodeAux, hstep, hrec, Char.ofNat_toNat]

/-- ASCII byte strings decode to the corresponding characters. -/
theorem utf8Decode_ascii (s : Str) (h : ∀ c ∈ s, c.toNat < 128) :
    utf8Decode (s.map Char.toNat) = some s := by
  rw [utf8Decode, List.length_map]
  exact utf8DecodeAux_ascii s h s.length le_rfl

/-- Python `str.strip()` is the identity on a serialised dict (it starts with a
brace and ends with a brace, neither whitespace). -/
theorem pyStrip_dumps (d : Payload) : pyStrip (dumps d) = dumps d := by
  unfold pyStrip
  have hd : dumps d = lbraceCh :: (dumpsMembers d ++ [rbraceCh]) := rfl
  rw [hd, List.dropWhile_cons, if_neg (by decide)]
  rw [show (lbraceCh :: (dumpsMembers d ++ [rbraceCh])).reverse =
    rbraceCh :: ((dumpsMembers d).reverse ++ [lbraceCh]) by simp]
  rw [List.dropWhile_cons, if_neg (by decide)]
  simp

/-! ### Frame scanning -/

/-- One unfolding of the `_parse_response` scan loop. -/
theorem parse_response_unfold (data : List Nat) :
    parse_response data =
      match splitOnFirst prefixBytes data with
      | none => []
      | some (_, afterPre) =>
        match splitOnFirst suffixBytes afterPre with
        | none => []
        | some (slice, afterSuf) =>
          match decodeSlice slice with
          | some parsed => parsed :: parse_response afterSuf
          | none => parse_response afterSuf := by
  rw [parse_response]
  split
  · rename_i heq
    simp only [heq]
  · rename_i fst afterPre heq
    simp only [heq]
    split
    · rename_i heq2
      simp only [heq2]
    · rename_i slice afterSuf heq2
      simp only [heq2]

/-- Scanning an empty buffer yields no payloads. -/
theorem parse_response_nil : parse_response [] = [] := by
  rw [parse_response_unfold]
  rfl

/-- A split at an immediate occurrence of the pattern. -/
theorem splitOnFirst_self {pat z : List Nat} (hpat : pat ≠ []) :
    splitOnFirst pat (pat ++ z) = some ([], z) := by
  cases pat with
  | nil => exact absurd rfl hpat
  | cons p pt =>
    rw [List.cons_append, splitOnFirst,
      if_pos ( List.isPrefixOf_iff_prefix.mpr ⟨z, by simp⟩)]
    simp [List.drop_succ_cons, List.drop_left]

/-- Splitting on a single byte that does not occur in the part before its
first occurrence. -/
theorem splitOnFirst_single {x : Nat} :
    ∀ (a tail : List Nat), x ∉ a →
      splitOnFirst [x] (a ++ x :: tail) = some (a, tail) := by
  intro a
  induction a with
  | nil =>
    intro tail _
    rw [List.nil_append, splitOnFirst, if_pos (by simp [List.isPrefixOf])]
    simp
  | cons b a' ih =>
    intro tail hx
    have hxb : ¬ x = b := fun he => hx (he ▸ List.mem_cons_self b a')
    rw [List.cons_append, splitOnFirst,
      if_neg (by simp [List.isPrefixOf, hxb]),
      ih tail (fun hm => hx (List.mem_cons_of_mem b hm))]

/-- Behaviour of `_parse_response` on a buffer whose head is one whole frame (header,
length bytes, padding, prefix, an `&`-free body slice, suffix): the body
slice is decoded (or skipped) and scanning continues exactly after the
suffix byte. -/
theorem parse_response_cons (n : Nat) (body rest : List Nat)
    (hbody : (38 : Nat) ∉ body) :
    parse_response (FRAME_HEADER ++ encodeLE32 n ++ FRAME_PADDING ++
        (prefixBytes ++ (body ++ 38 :: rest))) =
      match decodeSlice body with
      | some p => p :: parse_response rest
      | none => parse_response rest := by
  have hpb : prefixBytes = [77, 67, 85, 43, 80, 65, 83, 43] := by decide
  have hsb : suffixBytes = [38] := by decide
  have h1 : splitOnFirst prefixBytes (FRAME_HEADER ++ encodeLE32 n ++
      FRAME_PADDING ++ (prefixBytes ++ (body ++ 38 :: rest))) =
      some (FRAME_HEADER ++ encodeLE32 n ++ FRAME_PADDING,
        body ++ 38 :: rest) := by
    rw [hpb]
    simp [FRAME_HEADER, encodeLE32, FRAME_PADDING, splitOnFirst,
      List.isPrefixOf]
  rw [parse_response_unfold]
  simp only [h1, hsb, splitOnFirst_single body rest hbody]

/-- A whole well-formed frame at the head of the buffer decodes to its
payload and the scan continues on the remaining bytes. -/
theorem parse_response_frame (d : Payload) (rest : List Nat)
    (hgood : ∀ kv ∈ d, goodStr kv.1 ∧ goodVal kv.2)
    (hamp : ('&' : Char) ∉ dumps d) :
    parse_response (build_frame d ++ rest) = d :: parse_response rest := by
  have hascii := dumps_ascii d hgood
  have henc : utf8Encode (PAYLOAD_PREFIX ++ (dumps d ++ PAYLOAD_SUFFIX)) =
      prefixBytes ++ ((dumps d).map Char.toNat ++ 38 :: []) := by
    rw [utf8Encode_append, utf8Encode_append, utf8Encode_ascii _ hascii]
    have h1 : utf8Encode PAYLOAD_PREFIX = prefixBytes := by decide
    have h2 : utf8Encode PAYLOAD_SUFFIX = [38] := by decide
    rw [h1, h2]
  have hnbody : (38 : Nat) ∉ (dumps d).map Char.toNat := by
    intro hm
    obtain ⟨c, hc, hc38⟩ := List.mem_map.mp hm
    apply hamp
    have heq : c = '&' := char_toNat_inj (by rw [hc38]; decide)
    rwa [← heq]
  have hdec : decodeSlice ((dumps d).map Char.toNat) = some d := by
    unfold decodeSlice
    rw [utf8Decode_ascii _ hascii]
    show loads (pyStrip (dumps d)) = some d
    rw [pyStrip_dumps, loads_dumps d hgood]
  have hb1 : build_frame d ++ rest =
      FRAME_HEADER ++
        encodeLE32 (prefixBytes ++ ((dumps d).map Char.toNat ++ 38 :: [])).length ++
        FRAME_PADDING ++
        (prefixBytes ++ ((dumps d).map Char.toNat ++ 38 :: rest)) := by
    simp [build_frame, henc, List.append_assoc]
  rw [hb1, parse_response_cons _ _ rest hnbody]
  simp only [hdec]

/-- C9: codec round trip — for every well-formed field mapping whose JSON
serialisation contains neither the suffix character `&` nor the prefix
string `MCU+PAS+`, decoding the encoded frame yields exactly that mapping
back: `_parse_response(_build_frame(d)) = [d]`. -/
theorem build_parse_roundtrip (d : Payload)
    (hwf : WellFormedPayload d)
    (hamp : ('&' : Char) ∉ dumps d)
    (hpre : strContains PAYLOAD_PREFIX (dumps d) = false) :
    parse_response (build_frame d) = [d] := by
  have h := parse_response_frame d [] hwf.1 hamp
  rw [List.append_nil] at h
  rw [h, parse_response_nil]

/-- C9 witness: the frame for `{"fan_power": "ON"}` decodes back to exactly
that payload. -/
theorem build_parse_roundtrip_witness :
    parse_response (build_frame [(KEY_FAN_POWER, JVal.str VALUE_ON)]) =
      [[(KEY_FAN_POWER, JVal.str VALUE_ON)]] :=
  build_parse_roundtrip [(KEY_FAN_POWER, JVal.str VALUE_ON)]
    (by decide) (by decide) (by decide)

/-- C2: the frame decoder returns one payload per well-formed
prefix..suffix slice, in buffer order, without raising — two concatenated
well-formed frames decode to exactly their two payloads in order, an empty
buffer decodes to nothing, and an undecodable slice is skipped with the
scan resuming right after that slice's suffix position (here: the frame
following the bad slice is still decoded). -/
theorem decode_all_frames :
    (∀ d1 d2 : Payload, WellFormedPayload d1 → ('&' : Char) ∉ dumps d1 →
      WellFormedPayload d2 → ('&' : Char) ∉ dumps d2 →
      parse_response (build_frame d1 ++ build_frame d2) = [d1, d2]) ∧
    parse_response [] = [] ∧
    (∀ (bad : List Nat) (d : Payload), (38 : Nat) ∉ bad →
      decodeSlice bad = none →
      WellFormedPayload d → ('&' : Char) ∉ dumps d →
      parse_response (prefixBytes ++ (bad ++ 38 :: build_frame d)) = [d]) := by
  refine ⟨?_, parse_response_nil, ?_⟩
  · intro d1 d2 hwf1 hamp1 hwf2 hamp2
    rw [parse_response_frame d1 (build_frame d2) hwf1.1 hamp1]
    have h := parse_response_frame d2 [] hwf2.1 hamp2
    rw [List.append_nil] at h
    rw [h, parse_response_nil]
  · intro bad d hbad hdec hwf hamp
    have hsb : suffixBytes = [38] := by decide
    have h1 : splitOnFirst prefixBytes
        (prefixBytes ++ (bad ++ 38 :: build_frame d)) =
        some ([], bad ++ 38 :: build_frame d) :=
      splitOnFirst_self (by decide)
    rw [parse_response_unfold]
    simp only [h1, hsb, splitOnFirst_single bad (build_frame d) hbad, hdec]
    have h := parse_response_frame d [] hwf.1 hamp
    rw [List.append_nil] at h
    rw [h, parse_response_nil]

/-- C2 witness: two concrete frames decode in order; a bad slice (the
lone byte 0xFF is invalid UTF-8) is skipped and the following frame is
still decoded. -/
theorem decode_all_frames_witness :
    parse_response (build_frame [(KEY_FAN_POWER, JVal.str VALUE_ON)] ++
        build_frame [(KEY_LIGHT_POWER, JVal.str VALUE_OFF)]) =
      [[(KEY_FAN_POWER, JVal.str VALUE_ON)],
       [(KEY_LIGHT_POWER, JVal.str VALUE_OFF)]] ∧
    parse_response [] = [] ∧
    parse_response (prefixBytes ++
        ([255] ++ 38 :: build_frame [(KEY_LIGHT_POWER, JVal.str VALUE_OFF)])) =
      [[(KEY_LIGHT_POWER, JVal.str VALUE_OFF)]] :=
  ⟨decode_all_frames.1 [(KEY_FAN_POWER, JVal.str VALUE_ON)]
      [(KEY_LIGHT_POWER, JVal.str VALUE_OFF)]
      (by decide) (by decide) (by decide) (by decide),
   decode_all_frames.2.1,
   decode_all_frames.2.2 [255] [(KEY_LIGHT_POWER, JVal.str VALUE_OFF)]
      (by decide) (by decide) (by decide) (by decide)⟩

/-- CPython `min(iterable, key=key)` characterisation: the result is a
member of the iterated list, its key is minimal, and it is the *first*
minimum in iteration order (every earlier element has a strictly larger
key), because the accumulator is replaced only on a strictly smaller
key. -/
theorem pyMinBy_spec (key : Int → Nat) :
    ∀ (l : List Int) (acc : Int),
      pyMinBy key acc l ∈ acc :: l ∧
      (∀ u ∈ acc :: l, key (pyMinBy key acc l) ≤ key u) ∧
      ∃ l₁ l₂, acc :: l = l₁ ++ pyMinBy key acc l :: l₂ ∧
        ∀ u ∈ l₁, key (pyMinBy key acc l) < key u := by
  intro l
  induction l with
  | nil =>
    intro acc
    refine ⟨List.mem_cons_self acc [], ?_, [], [], rfl, by simp⟩
    intro u hu
    rw [List.mem_singleton] at hu
    subst hu
    exact le_refl _
  | cons t ts ih =>
    intro acc
    by_cases hlt : key t < key acc
    · have hpy : pyMinBy key acc (t :: ts) = pyMinBy key t ts := by
        show pyMinBy key (if key t < key acc then t else acc) ts = _
        rw [if_pos hlt]
      obtain ⟨hmem, hmin, l₁, l₂, hdec, hfirst⟩ := ih t
      rw [hpy]
      refine ⟨List.mem_cons_of_mem acc hmem, ?_, acc :: l₁, l₂, ?_, ?_⟩
      · intro u hu
        rcases List.mem_cons.mp hu with h | h
        · subst h
          exact le_trans (hmin t (List.mem_cons_self t ts)) (le_of_lt hlt)
        · exact hmin u h
      · rw [List.cons_append, ← hdec]
      · intro u hu
        rcases List.mem_cons.mp hu with h | h
        · subst h
          exact lt_of_le_of_lt (hmin t (List.mem_cons_self t ts)) hlt
        · exact hfirst u h
    · have hpy : pyMinBy key acc (t :: ts) = pyMinBy key acc ts := by
        show pyMinBy key (if key t < key acc then t else acc) ts = _
        rw [if_neg hlt]
      obtain ⟨hmem, hmin, l₁, l₂, hdec, hfirst⟩ := ih acc
      rw [hpy]
      have hat : key acc ≤ key t := le_of_not_lt hlt
      refine ⟨?_, ?_, ?_⟩
      · rcases List.mem_cons.mp hmem with h | h
        · rw [h]; exact List.mem_cons_self acc (t :: ts)
        · exact List.mem_cons_of_mem acc (List.mem_cons_of_mem t h)
      · intro u hu
        rcases List.mem_cons.mp hu with h | h
        · rw [h]
          exact hmin acc (List.mem_cons_self acc ts)
        · rcases List.mem_cons.mp h with h2 | h2
          · subst h2
            exact le_trans (hmin acc (List.mem_cons_self acc ts)) hat
          · exact hmin u (List.mem_cons_of_mem acc h2)
      · cases l₁ with
        | nil =>
          have hr : pyMinBy key acc ts = acc := by
            have h := hdec
            rw [List.nil_append] at h
            exact (List.cons.injEq _ _ _ _ ▸ h).1.symm
          refine ⟨[], t :: ts, ?_, by simp⟩
          rw [hr, List.nil_append]
        | cons a l₁' =>
          have hhead : a = acc ∧ ts = l₁' ++ pyMinBy key acc ts :: l₂ := by
            rw [List.cons_append] at hdec
            exact ⟨((List.cons.injEq _ _ _ _ ▸ hdec).1).symm,
              (List.cons.injEq _ _ _ _ ▸ hdec).2⟩
          refine ⟨acc :: t :: l₁', l₂, ?_, ?_⟩
          · rw [List.cons_append, List.cons_append, ← hhead.2]
          · intro u hu
            have hracc : key (pyMinBy key acc ts) < key acc := by
              apply hfirst
              rw [← hhead.1]
              exact List.mem_cons_self a l₁'
            rcases List.mem_cons.mp hu with h | h
            · subst h; exact hracc
            · rcases List.mem_cons.mp h with h2 | h2
              · subst h2
                exact lt_of_lt_of_le hracc hat
              · exact hfirst u (List.mem_cons_of_mem a h2)

/-- C5: `set_color_temperature(x)` sends
`snap(invert(clamp(x, 2200, 7000)))`, where `snap` returns the member of
`SUPPORTED_DEVICE_COLOR_TEMPS = [7000, 5500, 2700, 2200]` with minimum
absolute difference from the device-scale target, ties resolved to the
first minimum in that listed order — in particular the device-scale
midpoint 4100 (standard 5100) resolves to the first-listed 5500. -/
theorem set_color_temperature_snaps (x : Int) :
    set_color_temperature_sent x =
      snap_device_color_temp (invert_color_temp
        (max MIN_COLOR_TEMP_KELVIN (min MAX_COLOR_TEMP_KELVIN x))) ∧
    (set_color_temperature_sent x ∈ SUPPORTED_DEVICE_COLOR_TEMPS ∧
     (∀ u ∈ SUPPORTED_DEVICE_COLOR_TEMPS,
        (set_color_temperature_sent x -
          invert_color_temp (max MIN_COLOR_TEMP_KELVIN (min MAX_COLOR_TEMP_KELVIN x))).natAbs ≤
        (u - invert_color_temp (max MIN_COLOR_TEMP_KELVIN (min MAX_COLOR_TEMP_KELVIN x))).natAbs) ∧
     ∃ l₁ l₂, SUPPORTED_DEVICE_COLOR_TEMPS = l₁ ++ set_color_temperature_sent x :: l₂ ∧
       ∀ u ∈ l₁,
         (set_color_temperature_sent x -
           invert_color_temp (max MIN_COLOR_TEMP_KELVIN (min MAX_COLOR_TEMP_KELVIN x))).natAbs <
         (u - invert_color_temp (max MIN_COLOR_TEMP_KELVIN (min MAX_COLOR_TEMP_KELVIN x))).natAbs) ∧
    set_color_temperature_sent 5100 = 5500 := by
  refine ⟨rfl, ?_, by decide⟩
  have h := pyMinBy_spec
    (fun t => (t - invert_color_temp
      (max MIN_COLOR_TEMP_KELVIN (min MAX_COLOR_TEMP_KELVIN x))).natAbs)
    [5500, 2700, 2200] 7000
  exact h

/-- C5 witness: concrete instance at the tie input — standard 5100 maps to
device midpoint 4100 and the first-listed 5500 is sent, a member of the
supported list whose distance (1400) is minimal. -/
theorem set_color_temperature_snaps_witness :
    set_color_temperature_sent 5100 = 5500 ∧
    set_color_temperature_sent 5100 ∈ SUPPORTED_DEVICE_COLOR_TEMPS ∧
    (set_color_temperature_sent 5100 -
      invert_color_temp (max MIN_COLOR_TEMP_KELVIN
        (min MAX_COLOR_TEMP_KELVIN 5100))).natAbs ≤
    ((2700 : Int) - invert_color_temp (max MIN_COLOR_TEMP_KELVIN
        (min MAX_COLOR_TEMP_KELVIN 5100))).natAbs :=
  ⟨(set_color_temperature_snaps 5100).2.2,
   (set_color_temperature_snaps 5100).2.1.1,
   (set_color_temperature_snaps 5100).2.1.2.1 2700 (by decide)⟩

end Homewerks
